import Mathlib

/-!
Shallow embedding of `src/day21/src/main.rs` (keypad-routing cost engine,
Advent of Code 2024 day 21) and verification of its specification.

Buttons are `Char`s placed on a grid (`Pos = Nat × Nat`; usize coordinates in
the source).  `Keypad._map` models the `BTreeMap<char, Pos>` as an association
list whose entries appear in the BTreeMap's sorted key order; `_pos_map` (the
inverted `HashMap`) is modelled by the derived lookup `getButton`.
`get_min_paths` is a depth-first search driven by a stack used LIFO
(`pop_back`); we embed it as the equivalent recursive traversal, expanding
children in the order they would be popped (the reverse of the push order
`DIRS`), with an explicit fuel argument bounding the recursion depth.  The
search inserts the current button into `visited` before every expansion, so a
fuel of one more than the number of buttons can never be exhausted
(`dfsPaths_fuel_sufficient` makes this precise); `get_min_paths` passes
exactly that fuel.

The cost engine appears twice, faithfully to the source: `_calc_cost` is the
bare recursion (what `RobotChain::_calc_cost` computes ignoring `_cost_cache`)
and `_calc_cost_memo` threads the cache explicitly as state, with the lookup
made before anything else and the insertion made after the pair loop, exactly
as in the source (in particular depth-0 results are returned without being
inserted).  The two are proved extensionally equal.  `Keypad::_paths_cache`
memoizes the deterministic `get_min_paths` on a keypad value that is cloned
afresh for every cost call; it is modelled by using the pure function
directly.
-/

namespace Day21

abbrev Pos := Nat × Nat

/-- Rust's `(x as isize + d) as usize` cast: the signed sum is reduced
modulo 2^64 (wrapping, never clamped), so stepping left from column 0 yields
the huge coordinate 2^64 - 1, which no button occupies. -/
def usizeCast (i : Int) : Nat := (i % (2 ^ 64 : Int)).toNat

/-- The direction table `DIRS: [Dir; 4] = [DOWN, RIGHT, UP, LEFT]` with
`UP = ('^', (0, 1))`, `DOWN = ('v', (0, -1))`, `LEFT = ('<', (-1, 0))`,
`RIGHT = ('>', (1, 0))`. -/
def DIRS : List (Char × Int × Int) :=
  [('v', (0, -1)), ('>', (1, 0)), ('^', (0, 1)), ('<', (-1, 0))]

/-- `struct Keypad`: the button → position map (`_map`).  The inverse map
`_pos_map` and the `_paths_cache` are derived / modelled purely. -/
structure Keypad where
  _map : List (Char × Pos)
  deriving DecidableEq

namespace Keypad

/-- Button → position lookup, `self._map.get(&button)`. -/
def getPos (kp : Keypad) (c : Char) : Option Pos := kp._map.lookup c

/-- Position → button lookup, `self._pos_map.get(&(x, y))`, where `_pos_map`
is `_map` inverted. -/
def getButton (kp : Keypad) (p : Pos) : Option Char :=
  (kp._map.find? (fun e => e.2 == p)).map Prod.fst

/-- The buttons present on the keypad. -/
def buttons (kp : Keypad) : List Char := kp._map.map Prod.fst

/-- `Keypad::new_numpad` (entries listed in BTreeMap key order
`'0' < '1' < … < '9' < 'A'`). -/
def new_numpad : Keypad :=
  ⟨[('0', (1, 0)), ('1', (0, 1)), ('2', (1, 1)), ('3', (2, 1)),
    ('4', (0, 2)), ('5', (1, 2)), ('6', (2, 2)), ('7', (0, 3)),
    ('8', (1, 3)), ('9', (2, 3)), ('A', (2, 0))]⟩

/-- `Keypad::new_dirpad` (entries listed in BTreeMap key order
`'<' < '>' < 'A' < '^' < 'v'`). -/
def new_dirpad : Keypad :=
  ⟨[('<', (0, 0)), ('>', (2, 0)), ('A', (2, 1)), ('^', (1, 1)), ('v', (1, 0))]⟩

end Keypad

/-- The loop body of `Keypad::get_min_paths`'s search, recursively: the source
pops `(button, visited, path)` from the back of the stack, keeps
`path ++ ['A']` when `button` is the target `b`, drops entries whose button
was already visited, and otherwise pushes the four neighbours (pushed in
`DIRS` order, hence popped — and here recursed into — in reverse order).
`fuel` bounds the recursion depth; `get_min_paths` supplies enough that it is
never exhausted. -/
def dfsPaths (kp : Keypad) (b : Char) :
    Nat → Char → List Char → List Char → List (List Char)
  | 0, _, _, _ => []
  | fuel + 1, button, visited, path =>
    match kp.getPos button with
    | none => []
    | some (x, y) =>
      if button == b then [path ++ ['A']]
      else if visited.contains button then []
      else
        DIRS.reverse.flatMap fun d =>
          match kp.getButton (usizeCast ((x : Int) + d.2.1),
              usizeCast ((y : Int) + d.2.2)) with
          | some next_button =>
              dfsPaths kp b fuel next_button (button :: visited) (path ++ [d.1])
          | none => []

/-- `Keypad::get_min_paths`: collect every path the search finds from `a`
to `b`, compute the minimum length (`unwrap_or(0)` when there are none), and
keep exactly the paths of minimum length.  (`_paths_cache` only memoizes this
deterministic result and is not modelled.) -/
def get_min_paths (kp : Keypad) (a b : Char) : List (List Char) :=
  let paths := dfsPaths kp b (kp._map.length + 1) a [] []
  let min_len := (paths.map List.length).min?.getD 0
  paths.filter (fun p => p.length ≤ min_len)

/-- `RobotChain::_calc_cost` with the `_cost_cache` ignored: the bare
recursion.  Depth 0 prices a sequence at its length; otherwise the sequence
is split into the consecutive pairs `('A' :: code).zip code`, each pair is
priced as the cheapest of its minimal paths evaluated one level further down
the chain on the directional keypad (`unwrap_or(&0)` when there are no
candidate paths), and the per-pair minima are summed. -/
def _calc_cost : List Char → Nat → Keypad → Nat
  | code, 0, _ => code.length
  | code, chain_len + 1, keypad =>
    ((('A' :: code).zip code).map (fun ab =>
      ((get_min_paths keypad ab.1 ab.2).map
        (fun path => _calc_cost path chain_len Keypad.new_dirpad)).min?.getD 0)).sum

/-- Key of `_cost_cache`: `(String::from_iter(code), chain_len, keypad._map)`. -/
abbrev CacheKey := List Char × Nat × List (Char × Pos)

/-- `_cost_cache: HashMap<(String, usize, BTreeMap<char, Pos>), usize>`,
modelled as an association list. -/
abbrev Cache := List (CacheKey × Nat)

/-- Equality test of two cache keys (the comparison order is irrelevant to
the result; the depth is compared first only to fail fast). -/
def keyMatch (k1 k2 : CacheKey) : Bool :=
  k1.2.1 == k2.2.1 && k1.1 == k2.1 && k1.2.2 == k2.2.2

/-- `self._cost_cache.get(&key)`. -/
def cacheLookup (cache : Cache) (k : CacheKey) : Option Nat :=
  match cache with
  | [] => none
  | (k', v) :: rest => if keyMatch k k' then some v else cacheLookup rest k

/-- The inner loop of `_calc_cost`: price every candidate path of one button
pair, threading the cost cache through the recursive calls (`rec` is the
engine at the next depth down). -/
def pathsLoop (rec : List Char → Cache → Nat × Cache) :
    List (List Char) → Cache → List Nat × Cache
  | [], cache => ([], cache)
  | p :: rest, cache =>
    let r := rec p cache
    let rs := pathsLoop rec rest r.2
    (r.1 :: rs.1, rs.2)

/-- The outer loop of `_calc_cost`: accumulate, over the button pairs, the
minimum candidate cost of each pair (`costs.iter().min().unwrap_or(&0)`),
threading the cost cache. -/
def pairsLoop (rec : List Char → Cache → Nat × Cache) (keypad : Keypad) :
    List (Char × Char) → Cache → Nat × Cache
  | [], cache => (0, cache)
  | ab :: rest, cache =>
    let cs := pathsLoop rec (get_min_paths keypad ab.1 ab.2) cache
    let rs := pairsLoop rec keypad rest cs.2
    (cs.1.min?.getD 0 + rs.1, rs.2)

/-- `RobotChain::_calc_cost`, cache and all: look the key up first and return
the hit unchanged; at depth 0 return the length without inserting; otherwise
run the pair loop at one depth less on the directional keypad and insert the
total under the key before returning it. -/
def _calc_cost_memo : Nat → List Char → Keypad → Cache → Nat × Cache
  | chain_len, code, keypad, cache =>
    match cacheLookup cache (code, chain_len, keypad._map) with
    | some cost => (cost, cache)
    | none =>
      match chain_len with
      | 0 => (code.length, cache)
      | n + 1 =>
        let r := pairsLoop (fun p c => _calc_cost_memo n p Keypad.new_dirpad c)
          keypad (('A' :: code).zip code) cache
        (r.1, ((code, n + 1, keypad._map), r.1) :: r.2)

/-- `struct RobotChain` (the directional keypad `_dir_keypad` is always
`Keypad::new_dirpad()` and is inlined where used). -/
structure RobotChain where
  _keypad : Keypad
  _chain_len : Nat
  _cost_cache : Cache

/-- `RobotChain::new`. -/
def RobotChain.new (keypad : Keypad) (num_dir_keypads : Nat) : RobotChain :=
  ⟨keypad, num_dir_keypads, []⟩

/-- `RobotChain::calc_cost`: run `_calc_cost` at the chain's full length on
its keypad; the updated engine (with its enlarged cache) is returned alongside
the cost since the source method takes `&mut self`. -/
def RobotChain.calc_cost (rc : RobotChain) (code : List Char) : Nat × RobotChain :=
  let r := _calc_cost_memo rc._chain_len code rc._keypad rc._cost_cache
  (r.1, ⟨rc._keypad, rc._chain_len, r.2⟩)

/-- The numeric value embedded in a code:
`String::from_iter(code.filter(|c| c.is_numeric())).parse::<usize>()`.
For the digit-and-activate alphabet of the input codes, `char::is_numeric`
agrees with `Char.isDigit`; `parse` fails on an empty digit string. -/
def parseNum (code : List Char) : Option Nat :=
  let ds := code.filter Char.isDigit
  if ds.isEmpty then none
  else some (ds.foldl (fun a c => 10 * a + (c.toNat - 48)) 0)

/-- The loop of `run`: price each code on both chains (the chains, and so
their caches, persist across codes), weight by the embedded numeric value,
and accumulate the two totals; a value-parse failure aborts the whole run. -/
def runLoop : List (List Char) → Nat → Nat → RobotChain → RobotChain →
    Option (Nat × Nat)
  | [], t3, t26, _, _ => some (t3, t26)
  | code :: rest, t3, t26, r3, r26 =>
    let c3 := r3.calc_cost code
    let c26 := r26.calc_cost code
    match parseNum code with
    | none => none
    | some num => runLoop rest (t3 + c3.1 * num) (t26 + c26.1 * num) c3.2 c26.2

/-- `run` (with the line reading already done: it receives the decoded
codes): one numeric-keypad chain of length 3 and one of length 26, totals
accumulated over the codes in order. -/
def run (codes : List (List Char)) : Option (Nat × Nat) :=
  runLoop codes 0 0 (RobotChain.new Keypad.new_numpad 3)
    (RobotChain.new Keypad.new_numpad 26)

/-- The five example codes of the `test_run` input. -/
def exampleCodes : List (List Char) :=
  [['0', '2', '9', 'A'], ['9', '8', '0', 'A'], ['1', '7', '9', 'A'],
   ['4', '5', '6', 'A'], ['3', '7', '9', 'A']]

/-! Vocabulary used by the specification's properties. -/

/-- A button is valid on a topology when it exists in its map. -/
def validOn (kp : Keypad) (c : Char) : Bool := (kp.getPos c).isSome

/-- A sequence is valid on a topology when all its buttons are. -/
def validSeq (kp : Keypad) (code : List Char) : Bool := code.all (validOn kp)

/-- Manhattan distance between the positions of two buttons (0 when either
button is missing from the topology). -/
def manhattanDist (kp : Keypad) (a b : Char) : Nat :=
  match kp.getPos a, kp.getPos b with
  | some p, some q => (max p.1 q.1 - min p.1 q.1) + (max p.2 q.2 - min p.2 q.2)
  | _, _ => 0

/-- Execute one token of a path: a move token shifts the position by its
direction vector (with the source's usize wrap-around); the activate token
has no direction and leaves the arm in place. -/
def applyToken (pos : Pos) (c : Char) : Pos :=
  match DIRS.lookup c with
  | some d => (usizeCast ((pos.1 : Int) + d.1), usizeCast ((pos.2 : Int) + d.2))
  | none => pos

/-- The successive positions the arm occupies while executing a path's tokens
from a starting position. -/
def tokenPositions (pos : Pos) : List Char → List Pos
  | [] => []
  | c :: cs => applyToken pos c :: tokenPositions (applyToken pos c) cs

/-- The downstream prices of the candidate minimal paths of one button pair,
one level further down the chain (the list `costs` of the source's loop). -/
def candidateCosts (keypad : Keypad) (a b : Char) (d : Nat) : List Nat :=
  (get_min_paths keypad a b).map (fun path => _calc_cost path d Keypad.new_dirpad)

/-- A cache is coherent when every stored value is what the bare (uncached)
recursion computes for its key. -/
def CacheOk (cache : Cache) : Prop :=
  ∀ e ∈ cache, e.2 = _calc_cost e.1.1 e.1.2.1 ⟨e.1.2.2⟩


/-- The minimal-path sets of every numeric-keypad button pair, tabulated
(each entry equals `get_min_paths Keypad.new_numpad a b`; proven row by row
below).  Used to price deep chains without re-running the search. -/
def numpadPaths : List ((Char × Char) × List (List Char)) := [
  (('0', '0'), [['A']]),
  (('0', '1'), [['^', '<', 'A']]),
  (('0', '2'), [['^', 'A']]),
  (('0', '3'), [['^', '>', 'A'], ['>', '^', 'A']]),
  (('0', '4'), [['^', '<', '^', 'A'], ['^', '^', '<', 'A']]),
  (('0', '5'), [['^', '^', 'A']]),
  (('0', '6'), [['^', '^', '>', 'A'], ['^', '>', '^', 'A'], ['>', '^', '^', 'A']]),
  (('0', '7'), [['^', '<', '^', '^', 'A'], ['^', '^', '<', '^', 'A'], ['^', '^', '^', '<', 'A']]),
  (('0', '8'), [['^', '^', '^', 'A']]),
  (('0', '9'), [['^', '^', '^', '>', 'A'], ['^', '^', '>', '^', 'A'], ['^', '>', '^', '^', 'A'], ['>', '^', '^', '^', 'A']]),
  (('0', 'A'), [['>', 'A']]),
  (('1', '0'), [['>', 'v', 'A']]),
  (('1', '1'), [['A']]),
  (('1', '2'), [['>', 'A']]),
  (('1', '3'), [['>', '>', 'A']]),
  (('1', '4'), [['^', 'A']]),
  (('1', '5'), [['^', '>', 'A'], ['>', '^', 'A']]),
  (('1', '6'), [['^', '>', '>', 'A'], ['>', '^', '>', 'A'], ['>', '>', '^', 'A']]),
  (('1', '7'), [['^', '^', 'A']]),
  (('1', '8'), [['^', '^', '>', 'A'], ['^', '>', '^', 'A'], ['>', '^', '^', 'A']]),
  (('1', '9'), [['^', '^', '>', '>', 'A'], ['^', '>', '^', '>', 'A'], ['^', '>', '>', '^', 'A'], ['>', '^', '^', '>', 'A'], ['>', '^', '>', '^', 'A'], ['>', '>', '^', '^', 'A']]),
  (('1', 'A'), [['>', '>', 'v', 'A'], ['>', 'v', '>', 'A']]),
  (('2', '0'), [['v', 'A']]),
  (('2', '1'), [['<', 'A']]),
  (('2', '2'), [['A']]),
  (('2', '3'), [['>', 'A']]),
  (('2', '4'), [['<', '^', 'A'], ['^', '<', 'A']]),
  (('2', '5'), [['^', 'A']]),
  (('2', '6'), [['^', '>', 'A'], ['>', '^', 'A']]),
  (('2', '7'), [['<', '^', '^', 'A'], ['^', '<', '^', 'A'], ['^', '^', '<', 'A']]),
  (('2', '8'), [['^', '^', 'A']]),
  (('2', '9'), [['^', '^', '>', 'A'], ['^', '>', '^', 'A'], ['>', '^', '^', 'A']]),
  (('2', 'A'), [['>', 'v', 'A'], ['v', '>', 'A']]),
  (('3', '0'), [['<', 'v', 'A'], ['v', '<', 'A']]),
  (('3', '1'), [['<', '<', 'A']]),
  (('3', '2'), [['<', 'A']]),
  (('3', '3'), [['A']]),
  (('3', '4'), [['<', '<', '^', 'A'], ['<', '^', '<', 'A'], ['^', '<', '<', 'A']]),
  (('3', '5'), [['<', '^', 'A'], ['^', '<', 'A']]),
  (('3', '6'), [['^', 'A']]),
  (('3', '7'), [['<', '<', '^', '^', 'A'], ['<', '^', '<', '^', 'A'], ['<', '^', '^', '<', 'A'], ['^', '<', '<', '^', 'A'], ['^', '<', '^', '<', 'A'], ['^', '^', '<', '<', 'A']]),
  (('3', '8'), [['<', '^', '^', 'A'], ['^', '<', '^', 'A'], ['^', '^', '<', 'A']]),
  (('3', '9'), [['^', '^', 'A']]),
  (('3', 'A'), [['v', 'A']]),
  (('4', '0'), [['>', 'v', 'v', 'A'], ['v', '>', 'v', 'A']]),
  (('4', '1'), [['v', 'A']]),
  (('4', '2'), [['>', 'v', 'A'], ['v', '>', 'A']]),
  (('4', '3'), [['>', '>', 'v', 'A'], ['>', 'v', '>', 'A'], ['v', '>', '>', 'A']]),
  (('4', '4'), [['A']]),
  (('4', '5'), [['>', 'A']]),
  (('4', '6'), [['>', '>', 'A']]),
  (('4', '7'), [['^', 'A']]),
  (('4', '8'), [['^', '>', 'A'], ['>', '^', 'A']]),
  (('4', '9'), [['^', '>', '>', 'A'], ['>', '^', '>', 'A'], ['>', '>', '^', 'A']]),
  (('4', 'A'), [['>', '>', 'v', 'v', 'A'], ['>', 'v', '>', 'v', 'A'], ['>', 'v', 'v', '>', 'A'], ['v', '>', '>', 'v', 'A'], ['v', '>', 'v', '>', 'A']]),
  (('5', '0'), [['v', 'v', 'A']]),
  (('5', '1'), [['<', 'v', 'A'], ['v', '<', 'A']]),
  (('5', '2'), [['v', 'A']]),
  (('5', '3'), [['>', 'v', 'A'], ['v', '>', 'A']]),
  (('5', '4'), [['<', 'A']]),
  (('5', '5'), [['A']]),
  (('5', '6'), [['>', 'A']]),
  (('5', '7'), [['<', '^', 'A'], ['^', '<', 'A']]),
  (('5', '8'), [['^', 'A']]),
  (('5', '9'), [['^', '>', 'A'], ['>', '^', 'A']]),
  (('5', 'A'), [['>', 'v', 'v', 'A'], ['v', '>', 'v', 'A'], ['v', 'v', '>', 'A']]),
  (('6', '0'), [['<', 'v', 'v', 'A'], ['v', '<', 'v', 'A'], ['v', 'v', '<', 'A']]),
  (('6', '1'), [['<', '<', 'v', 'A'], ['<', 'v', '<', 'A'], ['v', '<', '<', 'A']]),
  (('6', '2'), [['<', 'v', 'A'], ['v', '<', 'A']]),
  (('6', '3'), [['v', 'A']]),
  (('6', '4'), [['<', '<', 'A']]),
  (('6', '5'), [['<', 'A']]),
  (('6', '6'), [['A']]),
  (('6', '7'), [['<', '<', '^', 'A'], ['<', '^', '<', 'A'], ['^', '<', '<', 'A']]),
  (('6', '8'), [['<', '^', 'A'], ['^', '<', 'A']]),
  (('6', '9'), [['^', 'A']]),
  (('6', 'A'), [['v', 'v', 'A']]),
  (('7', '0'), [['>', 'v', 'v', 'v', 'A'], ['v', '>', 'v', 'v', 'A'], ['v', 'v', '>', 'v', 'A']]),
  (('7', '1'), [['v', 'v', 'A']]),
  (('7', '2'), [['>', 'v', 'v', 'A'], ['v', '>', 'v', 'A'], ['v', 'v', '>', 'A']]),
  (('7', '3'), [['>', '>', 'v', 'v', 'A'], ['>', 'v', '>', 'v', 'A'], ['>', 'v', 'v', '>', 'A'], ['v', '>', '>', 'v', 'A'], ['v', '>', 'v', '>', 'A'], ['v', 'v', '>', '>', 'A']]),
  (('7', '4'), [['v', 'A']]),
  (('7', '5'), [['>', 'v', 'A'], ['v', '>', 'A']]),
  (('7', '6'), [['>', '>', 'v', 'A'], ['>', 'v', '>', 'A'], ['v', '>', '>', 'A']]),
  (('7', '7'), [['A']]),
  (('7', '8'), [['>', 'A']]),
  (('7', '9'), [['>', '>', 'A']]),
  (('7', 'A'), [['>', '>', 'v', 'v', 'v', 'A'], ['>', 'v', '>', 'v', 'v', 'A'], ['>', 'v', 'v', '>', 'v', 'A'], ['>', 'v', 'v', 'v', '>', 'A'], ['v', '>', '>', 'v', 'v', 'A'], ['v', '>', 'v', '>', 'v', 'A'], ['v', '>', 'v', 'v', '>', 'A'], ['v', 'v', '>', '>', 'v', 'A'], ['v', 'v', '>', 'v', '>', 'A']]),
  (('8', '0'), [['v', 'v', 'v', 'A']]),
  (('8', '1'), [['<', 'v', 'v', 'A'], ['v', '<', 'v', 'A'], ['v', 'v', '<', 'A']]),
  (('8', '2'), [['v', 'v', 'A']]),
  (('8', '3'), [['>', 'v', 'v', 'A'], ['v', '>', 'v', 'A'], ['v', 'v', '>', 'A']]),
  (('8', '4'), [['<', 'v', 'A'], ['v', '<', 'A']]),
  (('8', '5'), [['v', 'A']]),
  (('8', '6'), [['>', 'v', 'A'], ['v', '>', 'A']]),
  (('8', '7'), [['<', 'A']]),
  (('8', '8'), [['A']]),
  (('8', '9'), [['>', 'A']]),
  (('8', 'A'), [['>', 'v', 'v', 'v', 'A'], ['v', '>', 'v', 'v', 'A'], ['v', 'v', '>', 'v', 'A'], ['v', 'v', 'v', '>', 'A']]),
  (('9', '0'), [['<', 'v', 'v', 'v', 'A'], ['v', '<', 'v', 'v', 'A'], ['v', 'v', '<', 'v', 'A'], ['v', 'v', 'v', '<', 'A']]),
  (('9', '1'), [['<', '<', 'v', 'v', 'A'], ['<', 'v', '<', 'v', 'A'], ['<', 'v', 'v', '<', 'A'], ['v', '<', '<', 'v', 'A'], ['v', '<', 'v', '<', 'A'], ['v', 'v', '<', '<', 'A']]),
  (('9', '2'), [['<', 'v', 'v', 'A'], ['v', '<', 'v', 'A'], ['v', 'v', '<', 'A']]),
  (('9', '3'), [['v', 'v', 'A']]),
  (('9', '4'), [['<', '<', 'v', 'A'], ['<', 'v', '<', 'A'], ['v', '<', '<', 'A']]),
  (('9', '5'), [['<', 'v', 'A'], ['v', '<', 'A']]),
  (('9', '6'), [['v', 'A']]),
  (('9', '7'), [['<', '<', 'A']]),
  (('9', '8'), [['<', 'A']]),
  (('9', '9'), [['A']]),
  (('9', 'A'), [['v', 'v', 'v', 'A']]),
  (('A', '0'), [['<', 'A']]),
  (('A', '1'), [['<', '^', '<', 'A'], ['^', '<', '<', 'A']]),
  (('A', '2'), [['<', '^', 'A'], ['^', '<', 'A']]),
  (('A', '3'), [['^', 'A']]),
  (('A', '4'), [['<', '^', '<', '^', 'A'], ['<', '^', '^', '<', 'A'], ['^', '<', '<', '^', 'A'], ['^', '<', '^', '<', 'A'], ['^', '^', '<', '<', 'A']]),
  (('A', '5'), [['<', '^', '^', 'A'], ['^', '<', '^', 'A'], ['^', '^', '<', 'A']]),
  (('A', '6'), [['^', '^', 'A']]),
  (('A', '7'), [['<', '^', '<', '^', '^', 'A'], ['<', '^', '^', '<', '^', 'A'], ['<', '^', '^', '^', '<', 'A'], ['^', '<', '<', '^', '^', 'A'], ['^', '<', '^', '<', '^', 'A'], ['^', '<', '^', '^', '<', 'A'], ['^', '^', '<', '<', '^', 'A'], ['^', '^', '<', '^', '<', 'A'], ['^', '^', '^', '<', '<', 'A']]),
  (('A', '8'), [['<', '^', '^', '^', 'A'], ['^', '<', '^', '^', 'A'], ['^', '^', '<', '^', 'A'], ['^', '^', '^', '<', 'A']]),
  (('A', '9'), [['^', '^', '^', 'A']]),
  (('A', 'A'), [['A']])]

/-- The minimal-path sets of every directional-keypad button pair, tabulated
(each entry equals `get_min_paths Keypad.new_dirpad a b`). -/
def dirpadPaths : List ((Char × Char) × List (List Char)) := [
  (('<', '<'), [['A']]),
  (('<', '>'), [['>', '>', 'A']]),
  (('<', 'A'), [['>', '^', '>', 'A'], ['>', '>', '^', 'A']]),
  (('<', '^'), [['>', '^', 'A']]),
  (('<', 'v'), [['>', 'A']]),
  (('>', '<'), [['<', '<', 'A']]),
  (('>', '>'), [['A']]),
  (('>', 'A'), [['^', 'A']]),
  (('>', '^'), [['<', '^', 'A'], ['^', '<', 'A']]),
  (('>', 'v'), [['<', 'A']]),
  (('A', '<'), [['<', 'v', '<', 'A'], ['v', '<', '<', 'A']]),
  (('A', '>'), [['v', 'A']]),
  (('A', 'A'), [['A']]),
  (('A', '^'), [['<', 'A']]),
  (('A', 'v'), [['<', 'v', 'A'], ['v', '<', 'A']]),
  (('^', '<'), [['v', '<', 'A']]),
  (('^', '>'), [['>', 'v', 'A'], ['v', '>', 'A']]),
  (('^', 'A'), [['>', 'A']]),
  (('^', '^'), [['A']]),
  (('^', 'v'), [['v', 'A']]),
  (('v', '<'), [['<', 'A']]),
  (('v', '>'), [['>', 'A']]),
  (('v', 'A'), [['^', '>', 'A'], ['>', '^', 'A']]),
  (('v', '^'), [['^', 'A']]),
  (('v', 'v'), [['A']])]

/-- Table-backed equivalent of the path search on the two concrete
topologies (`fastPaths_eq_get_min_paths` proves them pointwise equal; on any
other keypad it falls through to the search).  It lets deep chains be
evaluated inside the kernel without re-running the search for every pair of
every priced subsequence. -/
def fastPaths (kp : Keypad) (a b : Char) : List (List Char) :=
  if kp = Keypad.new_numpad then (numpadPaths.lookup (a, b)).getD []
  else if kp = Keypad.new_dirpad then (dirpadPaths.lookup (a, b)).getD []
  else get_min_paths kp a b

/-- The cost cache with its entries bucketed by chain length (an equivalent
model of the source's hash map with cheaper lookups; `fast_calc_cost_memo_spec`
proves the engine that uses it computes exactly the bare recursion). -/
abbrev FCache := List (Nat × List ((List Char × List (Char × Pos)) × Nat))

/-- Look a key up in the bucketed cache: find the chain-length bucket, then
the (code, map) entry inside it. -/
def fastCacheLookup (cache : FCache) (k : CacheKey) : Option Nat :=
  match cache.lookup k.2.1 with
  | none => none
  | some bucket => bucket.lookup (k.1, k.2.2)

/-- Record a value in the bucketed cache. -/
def fastCacheInsert (k : CacheKey) (v : Nat) : FCache → FCache
  | [] => [(k.2.1, [((k.1, k.2.2), v)])]
  | (d, bucket) :: rest =>
    if k.2.1 = d then (d, ((k.1, k.2.2), v) :: bucket) :: rest
    else (d, bucket) :: fastCacheInsert k v rest

/-- `pathsLoop` over the bucketed cache. -/
def fastPathsLoop (rec : List Char → FCache → Nat × FCache) :
    List (List Char) → FCache → List Nat × FCache
  | [], cache => ([], cache)
  | p :: rest, cache =>
    let r := rec p cache
    let rs := fastPathsLoop rec rest r.2
    (r.1 :: rs.1, rs.2)

/-- `pairsLoop` with the tabulated path sets, over the bucketed cache. -/
def fastPairsLoop (rec : List Char → FCache → Nat × FCache) (keypad : Keypad) :
    List (Char × Char) → FCache → Nat × FCache
  | [], cache => (0, cache)
  | ab :: rest, cache =>
    let cs := fastPathsLoop rec (fastPaths keypad ab.1 ab.2) cache
    let rs := fastPairsLoop rec keypad rest cs.2
    (cs.1.min?.getD 0 + rs.1, rs.2)

/-- The memoized engine with the tabulated path sets and the bucketed cache
(`fast_calc_cost_memo_spec` proves it computes the bare recursion, exactly
like the faithful `_calc_cost_memo`). -/
def _fast_calc_cost_memo : Nat → List Char → Keypad → FCache → Nat × FCache
  | chain_len, code, keypad, cache =>
    match fastCacheLookup cache (code, chain_len, keypad._map) with
    | some cost => (cost, cache)
    | none =>
      match chain_len with
      | 0 => (code.length, cache)
      | n + 1 =>
        let r := fastPairsLoop (fun p c => _fast_calc_cost_memo n p Keypad.new_dirpad c)
          keypad (('A' :: code).zip code) cache
        (r.1, fastCacheInsert (code, n + 1, keypad._map) r.1 r.2)

/-- `runLoop` with the table-backed engine. -/
def fastRunLoop : List (List Char) → Nat → Nat → FCache → FCache →
    Option (Nat × Nat)
  | [], t3, t26, _, _ => some (t3, t26)
  | code :: rest, t3, t26, fc3, fc26 =>
    let c3 := _fast_calc_cost_memo 3 code Keypad.new_numpad fc3
    let c26 := _fast_calc_cost_memo 26 code Keypad.new_numpad fc26
    match parseNum code with
    | none => none
    | some num => fastRunLoop rest (t3 + c3.1 * num) (t26 + c26.1 * num) c3.2 c26.2

/-- `run` with the table-backed engine (proven equal to `run` in
`fastRun_eq_run`). -/
def fastRun (codes : List (List Char)) : Option (Nat × Nat) :=
  fastRunLoop codes 0 0 [] []

end Day21

namespace Day21

/-! Association-list facts about the keypad map. -/

theorem mem_of_lookup_eq_some {l : List (Char × Pos)} {c : Char} {v : Pos}
    (h : l.lookup c = some v) : (c, v) ∈ l := by
  rcases List.lookup_eq_some_iff.1 h with ⟨l₁, l₂, rfl, -⟩
  simp

theorem lookup_eq_some_of_mem_nodup {l : List (Char × Pos)}
    (hnd : (l.map Prod.fst).Nodup) {c : Char} {v : Pos} (h : (c, v) ∈ l) :
    l.lookup c = some v := by
  induction l with
  | nil => cases h
  | cons e l ih =>
    obtain ⟨k, w⟩ := e
    simp only [List.map_cons, List.nodup_cons] at hnd
    rcases List.mem_cons.1 h with hh | hh
    · rw [Prod.mk.injEq] at hh
      rw [hh.1, hh.2]
      exact List.lookup_cons_self
    · have hne : c ≠ k := fun hck => hnd.1 (by
        rw [← hck]
        exact List.mem_map.2 ⟨(c, v), hh, rfl⟩)
      rw [List.lookup_cons]
      have hbeq : (c == k) = false := by simpa using hne
      rw [hbeq]
      exact ih hnd.2 hh

theorem validOn_iff_mem_buttons (kp : Keypad) (c : Char) :
    validOn kp c = true ↔ c ∈ kp.buttons := by
  simp only [validOn, Keypad.getPos, List.lookup_isSome_iff, Keypad.buttons,
    List.mem_map, beq_iff_eq]
  constructor
  · rintro ⟨p, hp, rfl⟩
    exact ⟨p, hp, rfl⟩
  · rintro ⟨p, hp, rfl⟩
    exact ⟨p, hp, rfl⟩

theorem getButton_isSome_of_getPos {kp : Keypad} {c : Char} {xy : Pos}
    (h : kp.getPos c = some xy) : (kp.getButton xy).isSome = true := by
  have hmem : (c, xy) ∈ kp._map := mem_of_lookup_eq_some h
  have hfind : (kp._map.find? (fun e => e.2 == xy)).isSome :=
    List.find?_isSome.2 ⟨(c, xy), hmem, by simp⟩
  rcases Option.isSome_iff_exists.1 hfind with ⟨e, he⟩
  simp [Keypad.getButton, he]

theorem getPos_of_getButton {kp : Keypad}
    (hnd : (kp._map.map Prod.fst).Nodup) {xy : Pos} {c : Char}
    (h : kp.getButton xy = some c) : kp.getPos c = some xy := by
  simp only [Keypad.getButton, Option.map_eq_some'] at h
  rcases h with ⟨e, he, rfl⟩
  have hmem := List.mem_of_find?_eq_some he
  have hp := List.find?_some he
  simp only [beq_iff_eq] at hp
  have hin : (e.1, xy) ∈ kp._map := by
    rw [← hp]
    exact hmem
  exact lookup_eq_some_of_mem_nodup hnd hin

/-! Facts about minima of natural-number lists. -/

theorem min_getD_le_of_mem {l : List Nat} {x : Nat} (h : x ∈ l) :
    l.min?.getD 0 ≤ x := by
  rcases Option.isSome_iff_exists.1 (List.isSome_min?_of_mem h) with ⟨m, hm⟩
  rw [hm, Option.getD_some]
  exact (List.min?_eq_some_iff'.1 hm).2 x h

theorem min_getD_mem {l : List Nat} (h : l ≠ []) : l.min?.getD 0 ∈ l := by
  rcases List.exists_mem_of_ne_nil l h with ⟨x, hx⟩
  rcases Option.isSome_iff_exists.1 (List.isSome_min?_of_mem hx) with ⟨m, hm⟩
  rw [hm, Option.getD_some]
  exact (List.min?_eq_some_iff'.1 hm).1

theorem le_min_getD {l : List Nat} {m : Nat} (h : l ≠ []) (hle : ∀ x ∈ l, m ≤ x) :
    m ≤ l.min?.getD 0 :=
  hle _ (min_getD_mem h)

theorem min_getD_map_mono {α : Type} {l : List α} {f g : α → Nat}
    (h : ∀ x ∈ l, f x ≤ g x) :
    (l.map f).min?.getD 0 ≤ (l.map g).min?.getD 0 := by
  rcases eq_or_ne l [] with rfl | hne
  · simp
  · have hgne : l.map g ≠ [] := by simpa using hne
    have hmem : (l.map g).min?.getD 0 ∈ l.map g := min_getD_mem hgne
    rcases List.mem_map.1 hmem with ⟨x, hx, hgx⟩
    calc (l.map f).min?.getD 0 ≤ f x := min_getD_le_of_mem (List.mem_map_of_mem f hx)
      _ ≤ g x := h x hx
      _ = (l.map g).min?.getD 0 := hgx

/-! The strict decrease of the unvisited-button count, and fuel sufficiency
of the depth-first search. -/

theorem length_filter_lt_of_flip {α : Type} {P Q : α → Bool} {l : List α}
    (himp : ∀ c, P c = true → Q c = true) {x : α} (hx : x ∈ l)
    (hQ : Q x = true) (hP : P x = false) :
    (l.filter P).length < (l.filter Q).length := by
  induction l with
  | nil => cases hx
  | cons c l ih =>
    rcases List.mem_cons.1 hx with rfl | hx
    · rw [List.filter_cons_of_pos hQ, List.filter_cons_of_neg (by simp [hP])]
      exact Nat.lt_succ_of_le (List.Sublist.length_le
        (List.monotone_filter_right l himp))
    · by_cases hPc : P c = true
      · rw [List.filter_cons_of_pos hPc, List.filter_cons_of_pos (himp c hPc)]
        exact Nat.succ_lt_succ (ih hx)
      · rw [List.filter_cons_of_neg (by simpa using hPc)]
        have hle := ih hx
        cases hQc : Q c
        · rw [List.filter_cons_of_neg (by simp [hQc])]
          exact hle
        · rw [List.filter_cons_of_pos hQc]
          exact Nat.lt_succ_of_lt hle

end Day21

namespace Day21

theorem flatMap_congr {α β : Type} {l : List α} {f g : α → List β}
    (h : ∀ a ∈ l, f a = g a) : l.flatMap f = l.flatMap g := by
  induction l with
  | nil => rfl
  | cons a l ih =>
    simp only [List.flatMap_cons]
    rw [h a (List.mem_cons_self a l), ih (fun x hx => h x (List.mem_cons_of_mem a hx))]

/-- The search never exhausts its fuel while at least one more unit than the
number of yet-unvisited buttons remains: one extra step changes nothing.  In
particular the `kp._map.length + 1` supplied by `get_min_paths` (one more
than the bound for an empty visited set) lets the stack loop run to
completion exactly as in the source. -/
theorem dfsPaths_fuel_sufficient (kp : Keypad) (b : Char) :
    ∀ fuel button visited path,
      (kp.buttons.filter (fun c => !(visited.contains c))).length + 1 ≤ fuel →
      dfsPaths kp b fuel button visited path
        = dfsPaths kp b (fuel + 1) button visited path := by
  intro fuel
  induction fuel with
  | zero => intro button visited path hf; omega
  | succ f ih =>
    intro button visited path hf
    simp only [dfsPaths]
    rcases hgp : kp.getPos button with - | ⟨x, y⟩
    · rfl
    · rcases hbb : button == b with - | -
      · rcases hv : visited.contains button with - | -
        · simp only [Bool.false_eq_true, if_false]
          refine flatMap_congr fun d hd => ?_
          rcases hgb : kp.getButton
              (usizeCast ((x : Int) + d.2.1), usizeCast ((y : Int) + d.2.2)) with - | nb
          · simp [hgb]
          · simp only [hgb]
            refine ih nb (button :: visited) (path ++ [d.1]) ?_
            have hmem : button ∈ kp.buttons :=
              List.mem_map.2 ⟨(button, (x, y)), mem_of_lookup_eq_some hgp, rfl⟩
            have hlt : ((kp.buttons.filter
                  (fun c => !((button :: visited).contains c))).length
                < (kp.buttons.filter (fun c => !(visited.contains c))).length) := by
              refine length_filter_lt_of_flip ?_ hmem ?_ ?_
              · intro c hc
                simp at hc ⊢
                exact hc.2
              · simp at hv ⊢
                exact hv
              · simp
            omega
        · simp
      · simp

/-- A target button absent from the topology is never found: the search
returns no path at all. -/
theorem dfsPaths_eq_nil_of_target_missing (kp : Keypad) {b : Char}
    (hb : kp.getPos b = none) :
    ∀ fuel button visited path, dfsPaths kp b fuel button visited path = [] := by
  intro fuel
  induction fuel with
  | zero => intro button visited path; rfl
  | succ f ih =>
    intro button visited path
    simp only [dfsPaths]
    rcases hgp : kp.getPos button with - | ⟨x, y⟩
    · rfl
    · rcases hbb : button == b with - | -
      · rcases hv : visited.contains button with - | -
        · simp only [Bool.false_eq_true, if_false]
          refine List.flatMap_eq_nil_iff.2 fun d hd => ?_
          rcases hgb : kp.getButton
              (usizeCast ((x : Int) + d.2.1), usizeCast ((y : Int) + d.2.2)) with - | nb
          · simp [hgb]
          · simp only [hgb]
            exact ih nb (button :: visited) (path ++ [d.1])
        · simp
      · have : button = b := by simpa using hbb
        rw [this, hb] at hgp
        cases hgp

end Day21

namespace Day21

/-- Every path produced by the search extends the popped partial path, and
executing the extension from the current button's position only ever lands on
positions occupied by real buttons: each step is pushed only after
`_pos_map.get` confirmed a button at the stepped-to cell, and the closing
activate token does not move the arm. -/
theorem dfsPaths_walk (kp : Keypad) (hnd : (kp._map.map Prod.fst).Nodup) (b : Char) :
    ∀ fuel button visited path p,
      p ∈ dfsPaths kp b fuel button visited path →
      ∃ ext, p = path ++ ext ∧
        ∀ xy, kp.getPos button = some xy →
          ∀ q ∈ tokenPositions xy ext, (kp.getButton q).isSome = true := by
  intro fuel
  induction fuel with
  | zero => intro button visited path p hp; cases hp
  | succ f ih =>
    intro button visited path p hp
    simp only [dfsPaths] at hp
    split at hp
    · cases hp
    · rename_i x y hgp
      split at hp
      · rename_i hbb
        rcases List.mem_singleton.1 hp with rfl
        refine ⟨['A'], rfl, ?_⟩
        intro xy hxy q hq
        have happ : applyToken xy 'A' = xy := rfl
        rw [tokenPositions, happ, tokenPositions] at hq
        rcases List.mem_singleton.1 hq with rfl
        exact getButton_isSome_of_getPos hxy
      · split at hp
        · cases hp
        · rename_i hbb hv
          rcases List.mem_flatMap.1 hp with ⟨d, hd, hpd⟩
          split at hpd
          · rename_i nb hgb
            rcases ih nb (button :: visited) (path ++ [d.1]) p hpd with ⟨ext, hpe, hwalk⟩
            refine ⟨d.1 :: ext, by simpa using hpe, ?_⟩
            intro xy hxy q hq
            rw [hgp] at hxy
            injection hxy with hxy
            subst hxy
            have hstep : applyToken (x, y) d.1
                = (usizeCast ((x : Int) + d.2.1), usizeCast ((y : Int) + d.2.2)) := by
              have hdm : d ∈ DIRS.reverse := hd
              simp only [DIRS, List.reverse_cons, List.reverse_nil, List.nil_append,
                List.cons_append, List.mem_cons, List.not_mem_nil, or_false] at hdm
              rcases hdm with h | h | h | h <;> rw [h] <;> rfl
            rw [tokenPositions, hstep] at hq
            rcases List.mem_cons.1 hq with rfl | hq
            · rw [hgb]
              rfl
            · exact hwalk _ (getPos_of_getButton hnd hgb) q hq
          · cases hpd

end Day21

namespace Day21

/-- Membership in the minimal-path set implies membership in the full set of
found paths. -/
theorem mem_dfs_of_mem_get_min_paths {kp : Keypad} {a b : Char} {p : List Char}
    (h : p ∈ get_min_paths kp a b) :
    p ∈ dfsPaths kp b (kp._map.length + 1) a [] [] := by
  simp only [get_min_paths] at h
  exact (List.mem_filter.1 h).1

/-- Looking up a pair whose target button does not exist on the topology
yields no path at all: the search only ever records a path upon popping the
target, which is never pushed (and, if it is the start, fails the map
lookup). -/
theorem get_min_paths_eq_nil_of_target_missing (kp : Keypad) {b : Char}
    (hb : kp.getPos b = none) (a : Char) : get_min_paths kp a b = [] := by
  simp [get_min_paths, dfsPaths_eq_nil_of_target_missing kp hb]

/-- Pricing a one-button sequence whose button is missing from the topology:
the single pair has no candidate paths, `unwrap_or(&0)` turns the empty
minimum into 0, and the total is the numeric result 0 — no abort. -/
theorem calc_cost_single_missing (kp : Keypad) {b : Char}
    (hb : kp.getPos b = none) (d : Nat) : _calc_cost [b] (d + 1) kp = 0 := by
  simp [_calc_cost, get_min_paths_eq_nil_of_target_missing kp hb]

/-- The search from a button to itself immediately pops the start, which is
the target, and the whole result is the single path `['A']`. -/
theorem get_min_paths_self {kp : Keypad} {a : Char} {xy : Pos}
    (h : kp.getPos a = some xy) : get_min_paths kp a a = [['A']] := by
  have hdfs : dfsPaths kp a (kp._map.length + 1) a [] [] = [['A']] := by
    simp [dfsPaths, h]
  simp only [get_min_paths]
  rw [hdfs]
  decide

/-- Pricing the bare activate sequence on the directional keypad costs
exactly one press at every depth. -/
theorem calc_cost_activate_dirpad : ∀ d, _calc_cost ['A'] d Keypad.new_dirpad = 1 := by
  intro d
  induction d with
  | zero => rfl
  | succ n ih =>
    have hself : get_min_paths Keypad.new_dirpad 'A' 'A' = [['A']] :=
      @get_min_paths_self Keypad.new_dirpad 'A' (2, 1) (by decide)
    simp [_calc_cost, hself, ih]

theorem mem_of_lookup_eq_some_generic {α β : Type} [BEq α] [LawfulBEq α]
    {l : List (α × β)} {k : α} {v : β} (h : l.lookup k = some v) : (k, v) ∈ l := by
  rcases List.lookup_eq_some_iff.1 h with ⟨l₁, l₂, rfl, -⟩
  simp

/-- Looking up a pair whose start button does not exist on the topology also
yields no path: the very first pop fails the map lookup. -/
theorem get_min_paths_eq_nil_of_start_missing (kp : Keypad) {a : Char}
    (ha : kp.getPos a = none) (b : Char) : get_min_paths kp a b = [] := by
  simp [get_min_paths, dfsPaths, ha]

set_option maxRecDepth 10000 in
theorem numpadPaths_keys_valid :
    ∀ e ∈ numpadPaths,
      e.1.1 ∈ Keypad.new_numpad.buttons ∧ e.1.2 ∈ Keypad.new_numpad.buttons := by
  decide

theorem dirpadPaths_keys_valid :
    ∀ e ∈ dirpadPaths,
      e.1.1 ∈ Keypad.new_dirpad.buttons ∧ e.1.2 ∈ Keypad.new_dirpad.buttons := by
  decide

theorem numpadPaths_row_0 :
    ∀ b ∈ Keypad.new_numpad.buttons,
      fastPaths Keypad.new_numpad '0' b = get_min_paths Keypad.new_numpad '0' b := by
  decide

theorem numpadPaths_row_1 :
    ∀ b ∈ Keypad.new_numpad.buttons,
      fastPaths Keypad.new_numpad '1' b = get_min_paths Keypad.new_numpad '1' b := by
  decide

theorem numpadPaths_row_2 :
    ∀ b ∈ Keypad.new_numpad.buttons,
      fastPaths Keypad.new_numpad '2' b = get_min_paths Keypad.new_numpad '2' b := by
  decide

theorem numpadPaths_row_3 :
    ∀ b ∈ Keypad.new_numpad.buttons,
      fastPaths Keypad.new_numpad '3' b = get_min_paths Keypad.new_numpad '3' b := by
  decide

theorem numpadPaths_row_4 :
    ∀ b ∈ Keypad.new_numpad.buttons,
      fastPaths Keypad.new_numpad '4' b = get_min_paths Keypad.new_numpad '4' b := by
  decide

theorem numpadPaths_row_5 :
    ∀ b ∈ Keypad.new_numpad.buttons,
      fastPaths Keypad.new_numpad '5' b = get_min_paths Keypad.new_numpad '5' b := by
  decide

theorem numpadPaths_row_6 :
    ∀ b ∈ Keypad.new_numpad.buttons,
      fastPaths Keypad.new_numpad '6' b = get_min_paths Keypad.new_numpad '6' b := by
  decide

theorem numpadPaths_row_7 :
    ∀ b ∈ Keypad.new_numpad.buttons,
      fastPaths Keypad.new_numpad '7' b = get_min_paths Keypad.new_numpad '7' b := by
  decide

theorem numpadPaths_row_8 :
    ∀ b ∈ Keypad.new_numpad.buttons,
      fastPaths Keypad.new_numpad '8' b = get_min_paths Keypad.new_numpad '8' b := by
  decide

theorem numpadPaths_row_9 :
    ∀ b ∈ Keypad.new_numpad.buttons,
      fastPaths Keypad.new_numpad '9' b = get_min_paths Keypad.new_numpad '9' b := by
  decide

theorem numpadPaths_row_A :
    ∀ b ∈ Keypad.new_numpad.buttons,
      fastPaths Keypad.new_numpad 'A' b = get_min_paths Keypad.new_numpad 'A' b := by
  decide

theorem dirpadPaths_row_left :
    ∀ b ∈ Keypad.new_dirpad.buttons,
      fastPaths Keypad.new_dirpad '<' b = get_min_paths Keypad.new_dirpad '<' b := by
  decide

theorem dirpadPaths_row_right :
    ∀ b ∈ Keypad.new_dirpad.buttons,
      fastPaths Keypad.new_dirpad '>' b = get_min_paths Keypad.new_dirpad '>' b := by
  decide

theorem dirpadPaths_row_act :
    ∀ b ∈ Keypad.new_dirpad.buttons,
      fastPaths Keypad.new_dirpad 'A' b = get_min_paths Keypad.new_dirpad 'A' b := by
  decide

theorem dirpadPaths_row_up :
    ∀ b ∈ Keypad.new_dirpad.buttons,
      fastPaths Keypad.new_dirpad '^' b = get_min_paths Keypad.new_dirpad '^' b := by
  decide

theorem dirpadPaths_row_down :
    ∀ b ∈ Keypad.new_dirpad.buttons,
      fastPaths Keypad.new_dirpad 'v' b = get_min_paths Keypad.new_dirpad 'v' b := by
  decide

/-- The tabulated path sets agree with the search everywhere. -/
theorem fastPaths_eq_get_min_paths :
    ∀ (kp : Keypad) (a b : Char), fastPaths kp a b = get_min_paths kp a b := by
  intro kp a b
  by_cases hn : kp = Keypad.new_numpad
  · subst hn
    rcases ha : Keypad.new_numpad.getPos a with - | pa
    · rw [get_min_paths_eq_nil_of_start_missing _ ha b]
      simp only [fastPaths, if_pos rfl]
      rcases hlk : numpadPaths.lookup (a, b) with - | v
      · rfl
      · exfalso
        have hak := (numpadPaths_keys_valid _ (mem_of_lookup_eq_some_generic hlk)).1
        have hv := (validOn_iff_mem_buttons Keypad.new_numpad a).2 hak
        simp [validOn, ha] at hv
    · rcases hb : Keypad.new_numpad.getPos b with - | pb
      · rw [get_min_paths_eq_nil_of_target_missing _ hb a]
        simp only [fastPaths, if_pos rfl]
        rcases hlk : numpadPaths.lookup (a, b) with - | v
        · rfl
        · exfalso
          have hbk := (numpadPaths_keys_valid _ (mem_of_lookup_eq_some_generic hlk)).2
          have hv := (validOn_iff_mem_buttons Keypad.new_numpad b).2 hbk
          simp [validOn, hb] at hv
      · have hamem : a ∈ Keypad.new_numpad.buttons :=
          (validOn_iff_mem_buttons _ a).1 (by simp [validOn, ha])
        have hbmem : b ∈ Keypad.new_numpad.buttons :=
          (validOn_iff_mem_buttons _ b).1 (by simp [validOn, hb])
        have hsplit : a = '0' ∨ a = '1' ∨ a = '2' ∨ a = '3' ∨ a = '4' ∨ a = '5'
            ∨ a = '6' ∨ a = '7' ∨ a = '8' ∨ a = '9' ∨ a = 'A' := by
          simpa [Keypad.buttons, Keypad.new_numpad] using hamem
        rcases hsplit with rfl | rfl | rfl | rfl | rfl | rfl | rfl | rfl | rfl | rfl | rfl
        · exact numpadPaths_row_0 b hbmem
        · exact numpadPaths_row_1 b hbmem
        · exact numpadPaths_row_2 b hbmem
        · exact numpadPaths_row_3 b hbmem
        · exact numpadPaths_row_4 b hbmem
        · exact numpadPaths_row_5 b hbmem
        · exact numpadPaths_row_6 b hbmem
        · exact numpadPaths_row_7 b hbmem
        · exact numpadPaths_row_8 b hbmem
        · exact numpadPaths_row_9 b hbmem
        · exact numpadPaths_row_A b hbmem
  · by_cases hd : kp = Keypad.new_dirpad
    · subst hd
      rcases ha : Keypad.new_dirpad.getPos a with - | pa
      · rw [get_min_paths_eq_nil_of_start_missing _ ha b]
        simp only [fastPaths, if_neg hn, if_pos rfl]
        rcases hlk : dirpadPaths.lookup (a, b) with - | v
        · rfl
        · exfalso
          have hak := (dirpadPaths_keys_valid _ (mem_of_lookup_eq_some_generic hlk)).1
          have hv := (validOn_iff_mem_buttons Keypad.new_dirpad a).2 hak
          simp [validOn, ha] at hv
      · rcases hb : Keypad.new_dirpad.getPos b with - | pb
        · rw [get_min_paths_eq_nil_of_target_missing _ hb a]
          simp only [fastPaths, if_neg hn, if_pos rfl]
          rcases hlk : dirpadPaths.lookup (a, b) with - | v
          · rfl
          · exfalso
            have hbk := (dirpadPaths_keys_valid _ (mem_of_lookup_eq_some_generic hlk)).2
            have hv := (validOn_iff_mem_buttons Keypad.new_dirpad b).2 hbk
            simp [validOn, hb] at hv
        · have hamem : a ∈ Keypad.new_dirpad.buttons :=
            (validOn_iff_mem_buttons _ a).1 (by simp [validOn, ha])
          have hbmem : b ∈ Keypad.new_dirpad.buttons :=
            (validOn_iff_mem_buttons _ b).1 (by simp [validOn, hb])
          have hsplit : a = '<' ∨ a = '>' ∨ a = 'A' ∨ a = '^' ∨ a = 'v' := by
            simpa [Keypad.buttons, Keypad.new_dirpad] using hamem
          rcases hsplit with rfl | rfl | rfl | rfl | rfl
          · exact dirpadPaths_row_left b hbmem
          · exact dirpadPaths_row_right b hbmem
          · exact dirpadPaths_row_act b hbmem
          · exact dirpadPaths_row_up b hbmem
          · exact dirpadPaths_row_down b hbmem
    · simp [fastPaths, hn, hd]

/-- The path-set facts, checked on the tables. -/
theorem table_min_paths_facts :
    ∀ kp ∈ [Keypad.new_numpad, Keypad.new_dirpad], ∀ a ∈ kp.buttons, ∀ b ∈ kp.buttons,
      fastPaths kp a b ≠ [] ∧
      ∀ p ∈ fastPaths kp a b,
        p ≠ [] ∧ validSeq Keypad.new_dirpad p = true ∧
          p.length = manhattanDist kp a b + 1 := by
  decide

/-- The concretely checked path-set facts about the two topologies: between
any two valid buttons at least one minimal path is found, and every minimal
path is non-empty, is a valid directional-keypad sequence, and has length
equal to the Manhattan distance of the pair plus one (the trailing activate
press); in particular no pair ever needs a detour around the gap. -/
theorem pads_min_paths_facts :
    ∀ kp ∈ [Keypad.new_numpad, Keypad.new_dirpad], ∀ a ∈ kp.buttons, ∀ b ∈ kp.buttons,
      get_min_paths kp a b ≠ [] ∧
      ∀ p ∈ get_min_paths kp a b,
        p ≠ [] ∧ validSeq Keypad.new_dirpad p = true ∧
          p.length = manhattanDist kp a b + 1 := by
  intro kp hkp a ha b hb
  rw [← fastPaths_eq_get_min_paths kp a b]
  exact table_min_paths_facts kp hkp a ha b hb

end Day21

namespace Day21

theorem keyMatch_iff {k1 k2 : CacheKey} : keyMatch k1 k2 = true ↔ k1 = k2 := by
  obtain ⟨c1, d1, m1⟩ := k1
  obtain ⟨c2, d2, m2⟩ := k2
  simp only [keyMatch, Bool.and_eq_true, beq_iff_eq, Prod.mk.injEq]
  constructor
  · rintro ⟨⟨h1, h2⟩, h3⟩
    exact ⟨h2, h1, h3⟩
  · rintro ⟨h1, h2, h3⟩
    exact ⟨⟨h2, h1⟩, h3⟩

theorem cacheLookup_eq_of_CacheOk {cache : Cache} {k : CacheKey} {v : Nat}
    (hok : CacheOk cache) (h : cacheLookup cache k = some v) :
    v = _calc_cost k.1 k.2.1 ⟨k.2.2⟩ := by
  induction cache with
  | nil => cases h
  | cons e rest ih =>
    obtain ⟨k', w⟩ := e
    rw [cacheLookup] at h
    by_cases hkm : keyMatch k k' = true
    · rw [if_pos hkm] at h
      injection h with h
      have hk : k = k' := keyMatch_iff.1 hkm
      subst hk
      rw [← h]
      exact hok (k, w) (List.mem_cons_self _ _)
    · rw [if_neg hkm] at h
      exact ih (fun e he => hok e (List.mem_cons_of_mem _ he)) h

theorem pathsLoop_spec {d : Nat} {rec : List Char → Cache → Nat × Cache}
    (hrec : ∀ p cache, CacheOk cache →
      (rec p cache).1 = _calc_cost p d Keypad.new_dirpad ∧ CacheOk (rec p cache).2) :
    ∀ paths cache, CacheOk cache →
      (pathsLoop rec paths cache).1
          = paths.map (fun p => _calc_cost p d Keypad.new_dirpad)
        ∧ CacheOk (pathsLoop rec paths cache).2 := by
  intro paths
  induction paths with
  | nil => intro cache hok; exact ⟨rfl, hok⟩
  | cons p rest ih =>
    intro cache hok
    rcases hrec p cache hok with ⟨h1, h2⟩
    rcases ih (rec p cache).2 h2 with ⟨h3, h4⟩
    refine ⟨?_, h4⟩
    simp only [pathsLoop, List.map_cons, h1, h3]

theorem pairsLoop_spec {d : Nat} {rec : List Char → Cache → Nat × Cache}
    (keypad : Keypad)
    (hrec : ∀ p cache, CacheOk cache →
      (rec p cache).1 = _calc_cost p d Keypad.new_dirpad ∧ CacheOk (rec p cache).2) :
    ∀ pairs cache, CacheOk cache →
      (pairsLoop rec keypad pairs cache).1
          = (pairs.map (fun ab =>
              ((get_min_paths keypad ab.1 ab.2).map
                (fun p => _calc_cost p d Keypad.new_dirpad)).min?.getD 0)).sum
        ∧ CacheOk (pairsLoop rec keypad pairs cache).2 := by
  intro pairs
  induction pairs with
  | nil => intro cache hok; exact ⟨rfl, hok⟩
  | cons ab rest ih =>
    intro cache hok
    rcases pathsLoop_spec hrec (get_min_paths keypad ab.1 ab.2) cache hok with ⟨h1, h2⟩
    rcases ih (pathsLoop rec (get_min_paths keypad ab.1 ab.2) cache).2 h2 with ⟨h3, h4⟩
    refine ⟨?_, h4⟩
    simp only [pairsLoop, List.map_cons, List.sum_cons, h1, h3]

/-- The memoized engine agrees with the bare recursion and preserves cache
coherence. -/
theorem calc_cost_memo_spec :
    ∀ (d : Nat) (code : List Char) (keypad : Keypad) (cache : Cache),
      CacheOk cache →
      (_calc_cost_memo d code keypad cache).1 = _calc_cost code d keypad
        ∧ CacheOk (_calc_cost_memo d code keypad cache).2 := by
  intro d
  induction d with
  | zero =>
    intro code keypad cache hok
    simp only [_calc_cost_memo]
    rcases hlk : cacheLookup cache (code, 0, keypad._map) with - | v
    · exact ⟨rfl, hok⟩
    · exact ⟨cacheLookup_eq_of_CacheOk hok hlk, hok⟩
  | succ n ih =>
    intro code keypad cache hok
    have hrec : ∀ p cache, CacheOk cache →
        ((fun p c => _calc_cost_memo n p Keypad.new_dirpad c) p cache).1
            = _calc_cost p n Keypad.new_dirpad
          ∧ CacheOk ((fun p c => _calc_cost_memo n p Keypad.new_dirpad c) p cache).2 :=
      fun p cache hok => ih p Keypad.new_dirpad cache hok
    simp only [_calc_cost_memo]
    rcases hlk : cacheLookup cache (code, n + 1, keypad._map) with - | v
    · rcases pairsLoop_spec keypad hrec (('A' :: code).zip code) cache hok with ⟨h1, h2⟩
      constructor
      · rw [h1]
        rfl
      · intro e he
        rcases List.mem_cons.1 he with rfl | he
        · rw [h1]
          rfl
        · exact h2 e he
    · exact ⟨cacheLookup_eq_of_CacheOk hok hlk, hok⟩

end Day21

namespace Day21

/-- A bucketed cache is coherent when every stored value is what the bare
recursion computes for its key (the bucket key is the chain length). -/
def CacheOkF (cache : FCache) : Prop :=
  ∀ b ∈ cache, ∀ e ∈ b.2, e.2 = _calc_cost e.1.1 b.1 ⟨e.1.2⟩

theorem fastCacheLookup_eq_of_ok {cache : FCache} {k : CacheKey} {v : Nat}
    (hok : CacheOkF cache) (h : fastCacheLookup cache k = some v) :
    v = _calc_cost k.1 k.2.1 ⟨k.2.2⟩ := by
  simp only [fastCacheLookup] at h
  rcases hbk : cache.lookup k.2.1 with - | bucket
  · rw [hbk] at h
    cases h
  · rw [hbk] at h
    have hbmem : (k.2.1, bucket) ∈ cache := mem_of_lookup_eq_some_generic hbk
    have hemem : ((k.1, k.2.2), v) ∈ bucket := mem_of_lookup_eq_some_generic h
    exact hok (k.2.1, bucket) hbmem ((k.1, k.2.2), v) hemem

theorem fastCacheInsert_ok {k : CacheKey} {v : Nat}
    (hv : v = _calc_cost k.1 k.2.1 ⟨k.2.2⟩) :
    ∀ {cache : FCache}, CacheOkF cache → CacheOkF (fastCacheInsert k v cache) := by
  intro cache
  induction cache with
  | nil =>
    intro hok b hb e he
    rcases List.mem_singleton.1 hb with rfl
    rcases List.mem_singleton.1 he with rfl
    exact hv
  | cons db rest ih =>
    obtain ⟨d, bucket⟩ := db
    intro hok
    simp only [fastCacheInsert]
    by_cases hd : k.2.1 = d
    · rw [if_pos hd]
      intro b hb e he
      rcases List.mem_cons.1 hb with rfl | hb
      · rcases List.mem_cons.1 he with rfl | he
        · exact hd ▸ hv
        · exact hok (d, bucket) (List.mem_cons_self _ _) e he
      · exact hok b (List.mem_cons_of_mem _ hb) e he
    · rw [if_neg hd]
      intro b hb e he
      rcases List.mem_cons.1 hb with rfl | hb
      · exact hok (d, bucket) (List.mem_cons_self _ _) e he
      · exact ih (fun b hb e he => hok b (List.mem_cons_of_mem _ hb) e he) b hb e he

theorem fastPathsLoop_spec {d : Nat} {rec : List Char → FCache → Nat × FCache}
    (hrec : ∀ p cache, CacheOkF cache →
      (rec p cache).1 = _calc_cost p d Keypad.new_dirpad ∧ CacheOkF (rec p cache).2) :
    ∀ paths cache, CacheOkF cache →
      (fastPathsLoop rec paths cache).1
          = paths.map (fun p => _calc_cost p d Keypad.new_dirpad)
        ∧ CacheOkF (fastPathsLoop rec paths cache).2 := by
  intro paths
  induction paths with
  | nil => intro cache hok; exact ⟨rfl, hok⟩
  | cons p rest ih =>
    intro cache hok
    rcases hrec p cache hok with ⟨h1, h2⟩
    rcases ih (rec p cache).2 h2 with ⟨h3, h4⟩
    refine ⟨?_, h4⟩
    simp only [fastPathsLoop, List.map_cons, h1, h3]

theorem fastPairsLoop_spec {d : Nat} {rec : List Char → FCache → Nat × FCache}
    (keypad : Keypad)
    (hrec : ∀ p cache, CacheOkF cache →
      (rec p cache).1 = _calc_cost p d Keypad.new_dirpad ∧ CacheOkF (rec p cache).2) :
    ∀ pairs cache, CacheOkF cache →
      (fastPairsLoop rec keypad pairs cache).1
          = (pairs.map (fun ab =>
              ((get_min_paths keypad ab.1 ab.2).map
                (fun p => _calc_cost p d Keypad.new_dirpad)).min?.getD 0)).sum
        ∧ CacheOkF (fastPairsLoop rec keypad pairs cache).2 := by
  intro pairs
  induction pairs with
  | nil => intro cache hok; exact ⟨rfl, hok⟩
  | cons ab rest ih =>
    intro cache hok
    rcases fastPathsLoop_spec hrec (fastPaths keypad ab.1 ab.2) cache hok with ⟨h1, h2⟩
    rcases ih (fastPathsLoop rec (fastPaths keypad ab.1 ab.2) cache).2 h2 with ⟨h3, h4⟩
    refine ⟨?_, h4⟩
    simp only [fastPairsLoop, List.map_cons, List.sum_cons, h1, h3]
    rw [fastPaths_eq_get_min_paths]

/-- The table-backed engine computes exactly the bare recursion and keeps its
cache coherent. -/
theorem fast_calc_cost_memo_spec :
    ∀ (d : Nat) (code : List Char) (keypad : Keypad) (cache : FCache),
      CacheOkF cache →
      (_fast_calc_cost_memo d code keypad cache).1 = _calc_cost code d keypad
        ∧ CacheOkF (_fast_calc_cost_memo d code keypad cache).2 := by
  intro d
  induction d with
  | zero =>
    intro code keypad cache hok
    simp only [_fast_calc_cost_memo]
    rcases hlk : fastCacheLookup cache (code, 0, keypad._map) with - | v
    · exact ⟨rfl, hok⟩
    · exact ⟨fastCacheLookup_eq_of_ok hok hlk, hok⟩
  | succ n ih =>
    intro code keypad cache hok
    have hrec : ∀ p cache, CacheOkF cache →
        ((fun p c => _fast_calc_cost_memo n p Keypad.new_dirpad c) p cache).1
            = _calc_cost p n Keypad.new_dirpad
          ∧ CacheOkF ((fun p c => _fast_calc_cost_memo n p Keypad.new_dirpad c) p cache).2 :=
      fun p cache hok => ih p Keypad.new_dirpad cache hok
    simp only [_fast_calc_cost_memo]
    rcases hlk : fastCacheLookup cache (code, n + 1, keypad._map) with - | v
    · rcases fastPairsLoop_spec keypad hrec (('A' :: code).zip code) cache hok with ⟨h1, h2⟩
      constructor
      · rw [h1]
        rfl
      · refine fastCacheInsert_ok ?_ h2
        rw [h1]
        rfl
    · exact ⟨fastCacheLookup_eq_of_ok hok hlk, hok⟩

/-- The table-backed run agrees with the faithful run: both sides price every
code by the bare recursion's value. -/
theorem fastRunLoop_eq_runLoop :
    ∀ (codes : List (List Char)) (t3 t26 : Nat) (fc3 fc26 : FCache) (c3 c26 : Cache),
      CacheOkF fc3 → CacheOkF fc26 → CacheOk c3 → CacheOk c26 →
      fastRunLoop codes t3 t26 fc3 fc26
        = runLoop codes t3 t26 ⟨Keypad.new_numpad, 3, c3⟩ ⟨Keypad.new_numpad, 26, c26⟩ := by
  intro codes
  induction codes with
  | nil => intro t3 t26 fc3 fc26 c3 c26 h1 h2 h3 h4; rfl
  | cons code rest ih =>
    intro t3 t26 fc3 fc26 c3 c26 h1 h2 h3 h4
    rcases fast_calc_cost_memo_spec 3 code Keypad.new_numpad fc3 h1 with ⟨hf3, hf3ok⟩
    rcases fast_calc_cost_memo_spec 26 code Keypad.new_numpad fc26 h2 with ⟨hf26, hf26ok⟩
    rcases calc_cost_memo_spec 3 code Keypad.new_numpad c3 h3 with ⟨hs3, hs3ok⟩
    rcases calc_cost_memo_spec 26 code Keypad.new_numpad c26 h4 with ⟨hs26, hs26ok⟩
    simp only [fastRunLoop, runLoop, RobotChain.calc_cost]
    rcases parseNum code with - | num
    · rfl
    · simp only [hf3, hf26, hs3, hs26]
      exact ih _ _ _ _ _ _ hf3ok hf26ok hs3ok hs26ok

theorem fastRun_eq_run (codes : List (List Char)) : fastRun codes = run codes := by
  refine fastRunLoop_eq_runLoop codes 0 0 [] [] [] [] ?_ ?_ ?_ ?_
  · intro b hb e he
    cases hb
  · intro b hb e he
    cases hb
  · intro e he
    cases he
  · intro e he
    cases he

theorem calc_cost_zero (code : List Char) (keypad : Keypad) :
    _calc_cost code 0 keypad = code.length := rfl

theorem calc_cost_succ (code : List Char) (m : Nat) (keypad : Keypad) :
    _calc_cost code (m + 1) keypad
      = ((('A' :: code).zip code).map (fun ab =>
          ((get_min_paths keypad ab.1 ab.2).map
            (fun path => _calc_cost path m Keypad.new_dirpad)).min?.getD 0)).sum := rfl

/-- Monotonicity of the cost in the chain length, for valid sequences on the
two topologies in use: pricing through one more relay level never gets
cheaper. -/
theorem calc_cost_mono_aux :
    ∀ (d : Nat) (kp : Keypad),
      (kp = Keypad.new_numpad ∨ kp = Keypad.new_dirpad) →
      ∀ code, validSeq kp code = true →
        _calc_cost code d kp ≤ _calc_cost code (d + 1) kp := by
  intro d
  induction d with
  | zero =>
    intro kp hkp code hval
    have hkpmem : kp ∈ [Keypad.new_numpad, Keypad.new_dirpad] := by
      rcases hkp with rfl | rfl <;> simp
    have hA : 'A' ∈ kp.buttons := by
      rcases hkp with rfl | rfl <;> decide
    have hvalid : ∀ c ∈ code, c ∈ kp.buttons := by
      intro c hc
      refine (validOn_iff_mem_buttons kp c).1 ?_
      simp only [validSeq, List.all_eq_true] at hval
      exact hval c hc
    rw [calc_cost_zero, calc_cost_succ]
    have hlen : (('A' :: code).zip code).length = code.length := by
      rw [List.length_zip]
      simp
    rw [← hlen, ← List.length_map (('A' :: code).zip code) (fun ab =>
      ((get_min_paths kp ab.1 ab.2).map
        (fun path => _calc_cost path 0 Keypad.new_dirpad)).min?.getD 0)]
    refine List.length_le_sum_of_one_le _ ?_
    intro i hi
    rcases List.mem_map.1 hi with ⟨ab, hab, rfl⟩
    rcases List.of_mem_zip hab with ⟨ha, hb⟩
    have hamem : ab.1 ∈ kp.buttons := by
      rcases List.mem_cons.1 ha with h1 | h1
      · rw [h1]
        exact hA
      · exact hvalid _ h1
    have hbmem : ab.2 ∈ kp.buttons := hvalid _ hb
    rcases pads_min_paths_facts kp hkpmem ab.1 hamem ab.2 hbmem with ⟨hne, hall⟩
    refine le_min_getD ?_ ?_
    · simpa using hne
    · intro x hx
      rcases List.mem_map.1 hx with ⟨p, hp, rfl⟩
      rw [calc_cost_zero]
      exact List.length_pos.2 (hall p hp).1
  | succ n ih =>
    intro kp hkp code hval
    have hkpmem : kp ∈ [Keypad.new_numpad, Keypad.new_dirpad] := by
      rcases hkp with rfl | rfl <;> simp
    have hA : 'A' ∈ kp.buttons := by
      rcases hkp with rfl | rfl <;> decide
    have hvalid : ∀ c ∈ code, c ∈ kp.buttons := by
      intro c hc
      refine (validOn_iff_mem_buttons kp c).1 ?_
      simp only [validSeq, List.all_eq_true] at hval
      exact hval c hc
    rw [calc_cost_succ, calc_cost_succ]
    refine List.sum_le_sum ?_
    intro ab hab
    rcases List.of_mem_zip hab with ⟨ha, hb⟩
    have hamem : ab.1 ∈ kp.buttons := by
      rcases List.mem_cons.1 ha with h1 | h1
      · rw [h1]
        exact hA
      · exact hvalid _ h1
    have hbmem : ab.2 ∈ kp.buttons := hvalid _ hb
    rcases pads_min_paths_facts kp hkpmem ab.1 hamem ab.2 hbmem with ⟨hne, hall⟩
    refine min_getD_map_mono ?_
    intro p hp
    exact ih Keypad.new_dirpad (Or.inr rfl) p (hall p hp).2.1

end Day21

namespace Day21

/-- Claim C5: for every valid sequence and topology, the cost at depth 0 is
the length of the sequence (the human types it directly). -/
theorem cost_at_depth_zero_is_length :
    ∀ (kp : Keypad) (code : List Char), validSeq kp code = true →
      _calc_cost code 0 kp = code.length :=
  fun _ _ _ => rfl

/-- Witness for C5: the example code on the numeric keypad. -/
theorem cost_at_depth_zero_is_length_witness :
    validSeq Keypad.new_numpad ['0', '2', '9', 'A'] = true
    ∧ _calc_cost ['0', '2', '9', 'A'] 0 Keypad.new_numpad
        = (['0', '2', '9', 'A'] : List Char).length :=
  ⟨by decide, cost_at_depth_zero_is_length Keypad.new_numpad _ (by decide)⟩

/-- Claim C10: the minimal-path set from any valid button to itself is
exactly the one-element set containing the bare activate sequence, the
activate sequence costs one press on the directional keypad at every depth,
and consequently a repeated adjacent button contributes exactly one press at
the next relay level. -/
theorem min_paths_self_pair_single_activate :
    (∀ (kp : Keypad) (a : Char) (xy : Pos), kp.getPos a = some xy →
        get_min_paths kp a a = [['A']])
    ∧ (∀ d, _calc_cost ['A'] d Keypad.new_dirpad = 1)
    ∧ (∀ (kp : Keypad) (a : Char) (xy : Pos) (d : Nat), kp.getPos a = some xy →
        ((get_min_paths kp a a).map
          (fun p => _calc_cost p d Keypad.new_dirpad)).min?.getD 0 = 1) := by
  refine ⟨fun kp a xy h => get_min_paths_self h, calc_cost_activate_dirpad, ?_⟩
  intro kp a xy d h
  rw [get_min_paths_self h]
  simp [calc_cost_activate_dirpad d]

/-- Witness for C10: the activate button of the numeric keypad. -/
theorem min_paths_self_pair_single_activate_witness :
    Keypad.new_numpad.getPos 'A' = some (2, 0)
    ∧ get_min_paths Keypad.new_numpad 'A' 'A' = [['A']]
    ∧ ((get_min_paths Keypad.new_numpad 'A' 'A').map
        (fun p => _calc_cost p 2 Keypad.new_dirpad)).min?.getD 0 = 1 :=
  ⟨by decide,
   min_paths_self_pair_single_activate.1 Keypad.new_numpad 'A' (2, 0) (by decide),
   min_paths_self_pair_single_activate.2.2 Keypad.new_numpad 'A' (2, 0) 2 (by decide)⟩

/-- Claim C3, counterexample: with a button that does not exist on the
topology, the engine does not abort — the path lookup returns the empty set
and the cost call silently returns the numeric result 0 (both
`unwrap_or` sites default instead of asserting). -/
theorem missing_button_cost_counterexample :
    get_min_paths Keypad.new_dirpad 'Z' 'A' = []
    ∧ get_min_paths Keypad.new_dirpad 'A' 'Z' = []
    ∧ _calc_cost ['Z'] 1 Keypad.new_dirpad = 0 := by decide

/-- Claim C3, amended: a pair whose target button does not exist on the
topology yields the empty minimal-path set, and pricing such a button at any
positive depth silently returns the numeric result 0; no assertion or abort
occurs anywhere on this path. -/
theorem missing_button_silent_zero :
    ∀ (kp : Keypad) (a b : Char) (d : Nat), kp.getPos b = none →
      get_min_paths kp a b = [] ∧ _calc_cost [b] (d + 1) kp = 0 :=
  fun kp a _b d hb =>
    ⟨get_min_paths_eq_nil_of_target_missing kp hb a, calc_cost_single_missing kp hb d⟩

/-- Witness for the amended C3: the button 'Z' on the numeric keypad. -/
theorem missing_button_silent_zero_witness :
    Keypad.new_numpad.getPos 'Z' = none
    ∧ (get_min_paths Keypad.new_numpad 'A' 'Z' = []
       ∧ _calc_cost ['Z'] 1 Keypad.new_numpad = 0) :=
  ⟨by decide, missing_button_silent_zero Keypad.new_numpad 'A' 'Z' 0 (by decide)⟩

/-- Claim C4, counterexample: on the directional keypad the pair (activate,
up) has Manhattan distance 1 and its straight route does not cross the gap,
yet its minimal path `['<', 'A']` has length 2 — neither the claimed
Manhattan distance nor the distance plus 2 (every returned path carries the
trailing activate token the claim does not count). -/
theorem min_paths_length_counterexample :
    ∃ p ∈ get_min_paths Keypad.new_dirpad 'A' '^',
      p.length ≠ manhattanDist Keypad.new_dirpad 'A' '^'
      ∧ p.length ≠ manhattanDist Keypad.new_dirpad 'A' '^' + 2 := by decide

/-- Claim C4, amended: for every valid ordered button pair on either
topology, all members of the minimal-path set have the same length, equal to
the Manhattan distance between the two positions plus one for the trailing
activate token; the +2 gap-detour case never occurs on these topologies. -/
theorem min_paths_common_length_manhattan_plus_one :
    ∀ kp ∈ [Keypad.new_numpad, Keypad.new_dirpad],
      ∀ a ∈ kp.buttons, ∀ b ∈ kp.buttons,
        ∀ p ∈ get_min_paths kp a b, p.length = manhattanDist kp a b + 1 :=
  fun kp hkp a ha b hb p hp => ((pads_min_paths_facts kp hkp a ha b hb).2 p hp).2.2

/-- Witness for the amended C4: the pair (activate, zero) on the numeric
keypad, whose unique minimal path has length 2 = 1 + 1. -/
theorem min_paths_common_length_manhattan_plus_one_witness :
    ['<', 'A'] ∈ get_min_paths Keypad.new_numpad 'A' '0'
    ∧ (['<', 'A'] : List Char).length = manhattanDist Keypad.new_numpad 'A' '0' + 1 :=
  ⟨by decide,
   min_paths_common_length_manhattan_plus_one Keypad.new_numpad (by decide) 'A'
     (by decide) '0' (by decide) ['<', 'A'] (by decide)⟩

end Day21

namespace Day21

/-- Claim C7: executing any returned minimal path token by token from the
start button's position only ever occupies positions of real buttons, and in
particular never the topology's gap cell ((0,0) on the numeric keypad,
(0,1) on the directional keypad). -/
theorem min_paths_never_cross_gap :
    ∀ (kp : Keypad) (gap : Pos),
      ((kp = Keypad.new_numpad ∧ gap = (0, 0))
        ∨ (kp = Keypad.new_dirpad ∧ gap = (0, 1))) →
      ∀ (a b : Char) (xy : Pos), kp.getPos a = some xy →
        ∀ p ∈ get_min_paths kp a b, ∀ q ∈ tokenPositions xy p,
          (kp.getButton q).isSome = true ∧ q ≠ gap := by
  intro kp gap hkp a b xy hxy p hp q hq
  have hnd : (kp._map.map Prod.fst).Nodup := by
    rcases hkp with ⟨rfl, -⟩ | ⟨rfl, -⟩ <;> decide
  have hdfs := mem_dfs_of_mem_get_min_paths hp
  rcases dfsPaths_walk kp hnd b (kp._map.length + 1) a [] [] p hdfs with ⟨ext, hpe, hwalk⟩
  rw [List.nil_append] at hpe
  subst hpe
  have hsome : (kp.getButton q).isSome = true := hwalk xy hxy q hq
  refine ⟨hsome, ?_⟩
  have hgap : kp.getButton gap = none := by
    rcases hkp with ⟨rfl, rfl⟩ | ⟨rfl, rfl⟩ <;> decide
  intro hqg
  rw [hqg, hgap] at hsome
  cases hsome

/-- Witness for C7: the minimal path from activate to zero on the numeric
keypad passes only over the zero button's cell, which is not the gap. -/
theorem min_paths_never_cross_gap_witness :
    Keypad.new_numpad.getPos 'A' = some (2, 0)
    ∧ ['<', 'A'] ∈ get_min_paths Keypad.new_numpad 'A' '0'
    ∧ (1, 0) ∈ tokenPositions (2, 0) ['<', 'A']
    ∧ (Keypad.new_numpad.getButton (1, 0)).isSome = true
    ∧ ((1, 0) : Pos) ≠ (0, 0) := by
  refine ⟨by decide, by decide, by decide, ?_⟩
  exact min_paths_never_cross_gap Keypad.new_numpad (0, 0) (Or.inl ⟨rfl, rfl⟩) 'A' '0'
    (2, 0) (by decide) ['<', 'A'] (by decide) (1, 0) (by decide)

/-- Claim C1: at positive depth, the cost of a valid non-empty sequence is
the sum, over the consecutive button pairs with activate prepended, of the
per-pair value, and that per-pair value is the minimum over all candidate
minimal paths of their cost one level further down on the directional
keypad — it belongs to the candidate cost set and bounds it from below. -/
theorem cost_recursive_case_is_sum_of_pair_minima :
    ∀ (kp : Keypad), (kp = Keypad.new_numpad ∨ kp = Keypad.new_dirpad) →
      ∀ (code : List Char), code ≠ [] → validSeq kp code = true →
        ∀ (d : Nat), 1 ≤ d →
          (_calc_cost code d kp
              = ((('A' :: code).zip code).map (fun ab =>
                  (candidateCosts kp ab.1 ab.2 (d - 1)).min?.getD 0)).sum)
          ∧ ∀ ab ∈ ('A' :: code).zip code,
              (candidateCosts kp ab.1 ab.2 (d - 1)).min?.getD 0
                  ∈ candidateCosts kp ab.1 ab.2 (d - 1)
              ∧ ∀ c ∈ candidateCosts kp ab.1 ab.2 (d - 1),
                  (candidateCosts kp ab.1 ab.2 (d - 1)).min?.getD 0 ≤ c := by
  intro kp hkp code hne hval d hd
  obtain ⟨n, rfl⟩ : ∃ n, d = n + 1 := ⟨d - 1, (Nat.succ_pred_eq_of_pos hd).symm⟩
  have hd1 : n + 1 - 1 = n := by omega
  have hkpmem : kp ∈ [Keypad.new_numpad, Keypad.new_dirpad] := by
    rcases hkp with rfl | rfl <;> simp
  have hA : 'A' ∈ kp.buttons := by
    rcases hkp with rfl | rfl <;> decide
  have hvalid : ∀ c ∈ code, c ∈ kp.buttons := by
    intro c hc
    refine (validOn_iff_mem_buttons kp c).1 ?_
    simp only [validSeq, List.all_eq_true] at hval
    exact hval c hc
  constructor
  · rw [hd1, calc_cost_succ]
    rfl
  · intro ab hab
    rcases List.of_mem_zip hab with ⟨ha, hb⟩
    have hamem : ab.1 ∈ kp.buttons := by
      rcases List.mem_cons.1 ha with h1 | h1
      · rw [h1]
        exact hA
      · exact hvalid _ h1
    have hbmem : ab.2 ∈ kp.buttons := hvalid _ hb
    have hne2 : candidateCosts kp ab.1 ab.2 (n + 1 - 1) ≠ [] := by
      have := (pads_min_paths_facts kp hkpmem ab.1 hamem ab.2 hbmem).1
      simp [candidateCosts, this]
    exact ⟨min_getD_mem hne2, fun c hc => min_getD_le_of_mem hc⟩

/-- Witness for C1: the one-button code "0" on the numeric keypad at
depth 1. -/
theorem cost_recursive_case_is_sum_of_pair_minima_witness :
    validSeq Keypad.new_numpad ['0'] = true
    ∧ ((_calc_cost ['0'] 1 Keypad.new_numpad
          = ((('A' :: ['0']).zip ['0']).map (fun ab =>
              (candidateCosts Keypad.new_numpad ab.1 ab.2 (1 - 1)).min?.getD 0)).sum)
        ∧ ∀ ab ∈ ('A' :: ['0']).zip ['0'],
            (candidateCosts Keypad.new_numpad ab.1 ab.2 (1 - 1)).min?.getD 0
                ∈ candidateCosts Keypad.new_numpad ab.1 ab.2 (1 - 1)
            ∧ ∀ c ∈ candidateCosts Keypad.new_numpad ab.1 ab.2 (1 - 1),
                (candidateCosts Keypad.new_numpad ab.1 ab.2 (1 - 1)).min?.getD 0 ≤ c) :=
  ⟨by decide,
   cost_recursive_case_is_sum_of_pair_minima Keypad.new_numpad (Or.inl rfl) ['0']
     (by decide) (by decide) 1 (by decide)⟩

/-- Claim C8: for a fixed valid sequence on either topology, the cost is
non-decreasing in the relay depth. -/
theorem cost_nondecreasing_in_depth :
    ∀ (kp : Keypad), (kp = Keypad.new_numpad ∨ kp = Keypad.new_dirpad) →
      ∀ (code : List Char), validSeq kp code = true →
        ∀ d, _calc_cost code d kp ≤ _calc_cost code (d + 1) kp :=
  fun kp hkp code hval d => calc_cost_mono_aux d kp hkp code hval

/-- Witness for C8: the example code on the numeric keypad between depths 2
and 3. -/
theorem cost_nondecreasing_in_depth_witness :
    validSeq Keypad.new_numpad ['0', '2', '9', 'A'] = true
    ∧ _calc_cost ['0', '2', '9', 'A'] 2 Keypad.new_numpad
        ≤ _calc_cost ['0', '2', '9', 'A'] 3 Keypad.new_numpad :=
  ⟨by decide,
   cost_nondecreasing_in_depth Keypad.new_numpad (Or.inl rfl) ['0', '2', '9', 'A']
     (by decide) 2⟩

/-- Claim C6: starting from any coherent cache (in particular the empty one),
the memoized engine returns exactly what the bare uncached recursion
computes, every entry of the resulting cache equals the uncached
recomputation for its key, and a second call with identical arguments on the
resulting engine state returns the identical result. -/
theorem memoized_cost_matches_uncached :
    ∀ (code : List Char) (d : Nat) (keypad : Keypad) (cache : Cache),
      CacheOk cache →
        (_calc_cost_memo d code keypad cache).1 = _calc_cost code d keypad
        ∧ CacheOk (_calc_cost_memo d code keypad cache).2
        ∧ (_calc_cost_memo d code keypad (_calc_cost_memo d code keypad cache).2).1
            = (_calc_cost_memo d code keypad cache).1 := by
  intro code d keypad cache hok
  rcases calc_cost_memo_spec d code keypad cache hok with ⟨h1, h2⟩
  refine ⟨h1, h2, ?_⟩
  rw [(calc_cost_memo_spec d code keypad _ h2).1, h1]

/-- Witness for C6: the code "02" at depth 1 on the numeric keypad from the
empty cache. -/
theorem memoized_cost_matches_uncached_witness :
    CacheOk []
    ∧ ((_calc_cost_memo 1 ['0', '2'] Keypad.new_numpad []).1
          = _calc_cost ['0', '2'] 1 Keypad.new_numpad
        ∧ CacheOk (_calc_cost_memo 1 ['0', '2'] Keypad.new_numpad []).2
        ∧ (_calc_cost_memo 1 ['0', '2'] Keypad.new_numpad
              (_calc_cost_memo 1 ['0', '2'] Keypad.new_numpad []).2).1
            = (_calc_cost_memo 1 ['0', '2'] Keypad.new_numpad []).1) :=
  ⟨by simp [CacheOk],
   memoized_cost_matches_uncached ['0', '2'] 1 Keypad.new_numpad [] (by simp [CacheOk])⟩

end Day21

namespace Day21

set_option maxRecDepth 100000 in
set_option maxHeartbeats 2000000 in
/-- Claim C9: on the numeric keypad the code "029A" costs 4 presses at
depth 0, 12 at depth 1, 28 at depth 2 and 68 at depth 3 (each chain fresh,
as in the source's test). -/
theorem code_029A_costs_by_depth :
    ((RobotChain.new Keypad.new_numpad 0).calc_cost ['0', '2', '9', 'A']).1 = 4
    ∧ ((RobotChain.new Keypad.new_numpad 1).calc_cost ['0', '2', '9', 'A']).1 = 12
    ∧ ((RobotChain.new Keypad.new_numpad 2).calc_cost ['0', '2', '9', 'A']).1 = 28
    ∧ ((RobotChain.new Keypad.new_numpad 3).calc_cost ['0', '2', '9', 'A']).1 = 68 := by
  decide

set_option maxRecDepth 200000 in
set_option maxHeartbeats 12000000 in
/-- Claim C2: running the engine on the five example codes — weighting each
code's cost by its embedded numeric value and accumulating one total per
depth — yields 126384 at the shallow depth 3 and 154115708116294 at the deep
depth 26. -/
theorem run_on_example_codes_totals :
    run exampleCodes = some (126384, 154115708116294) := by
  rw [← fastRun_eq_run]
  decide

end Day21
